import Mathlib

/-!
# Verification of the ADEPT-ML Preprocessing service

Shallow embedding of `src/preprocessing.py` (the module imported by `main.py`
as `src.preprocessing`) and of the two endpoint handlers `clean_data` and
`interpolate_data` from `main.py`.

Modelling conventions:

* Sensor readings are rationals (`ℚ`); a missing reading (pandas `NaN`,
  JSON `null`) is `none`, so a table cell is `Option ℚ`.  The Python
  filter `e == e` (false exactly on NaN) becomes `List.filterMap id`.
* Python `int` thresholds are `ℤ`.
* JSON object keys are modelled by `JKey`: `JKey.s v` is an ordinary key
  string `v`, and `JKey.n i` stands for the decimal rendering of the
  integer `i` (the millisecond-epoch keys of serialized tables).  This
  split keeps `pd.to_datetime(..., unit='ms')` (which parses those decimal
  strings) executable without a string-numeral parser; key strings that
  denote decimal integers are represented by `JKey.n` by convention.
* A Python string whose text is valid JSON is modelled by `Json.jstr j`
  where `j` is its parse; `Json.badstr e` is a string that is not valid
  JSON (`e` records whether it is the empty string, for truthiness).
  `json.loads` and `json.dumps` act on these constructors.
* The in-place mutations of the Python code are modelled functionally:
  every pass takes and returns the collection, and the insertion-ordered
  `dict` of buildings is a `List (JKey × Building)` (JSON objects are
  assumed free of duplicate keys, as `json.loads` collapses them).
* `pd.DataFrame(df_json)` is modelled for object-of-objects table JSON,
  the documented payload contract: the row index is the union of the row
  keys of all columns in order of first appearance (pandas preserves the
  common order when all columns share their row keys, which is the case
  for every serialized table), and each cell must be a number or `null`.
  Array-shaped frames and non-numeric cells are outside the model and
  reported as ingestion errors.
-/

namespace Preproc

/-- A JSON object key: either an arbitrary string or the decimal rendering
of an integer (used for millisecond-epoch row labels). -/
inductive JKey where
  | s (v : String)
  | n (i : Int)
deriving DecidableEq, Repr

/-- The string a `JKey` denotes (used when a key is re-emitted as a JSON
string value, e.g. the `name` field of a serialized building). -/
def JKey.toStr : JKey → String
  | .s v => v
  | .n i => toString i

/-- JSON values.  String values are split by whether their text is valid
JSON: `jstr j` is a string parsing to `j`, `badstr e` any other string
(`e` = it is the empty string), `str s` an ordinary string. -/
inductive Json where
  | null
  | bool (b : Bool)
  | num (q : ℚ)
  | str (s : String)
  | jstr (j : Json)
  | badstr (empty : Bool)
  | arr (elems : List Json)
  | obj (fields : List (JKey × Json))

/-- Python exceptions that `json_to_buildings` and `json.loads` can raise;
all of them are caught by the bare `except Exception` of the endpoints. -/
inductive PyErr where
  | keyError (k : String)
  | typeError
  | decodeError
  | valueError
deriving DecidableEq, Repr

/-- An HTTP error response (`fastapi.HTTPException`). -/
structure HTTPError where
  code : Nat
  detail : String
deriving DecidableEq, Repr

/-- `Building.Sensor`: sensor metadata.  The source never checks the types
of the three fields, so they are arbitrary JSON values. -/
structure Sensor where
  type : Json
  desc : Json
  unit : Json

/-- A pandas DataFrame: a millisecond-epoch row index together with the
columns in order, each column a label and one optional value per row. -/
structure DataFrame where
  index : List Int
  cols : List (JKey × List (Option ℚ))

/-- `Building`: name, sensor list and the sensor table. -/
structure Building where
  name : JKey
  sensors : List Sensor
  dataframe : DataFrame

/-- The dictionary of buildings, in insertion order. -/
abbrev Coll := List (JKey × Building)

/-- Looks up a (non-numeral) string key in a JSON object's field list,
modelling Python `d[k]` on a dict parsed from JSON. -/
def jlookup (fields : List (JKey × Json)) (k : String) : Option Json :=
  (fields.find? fun f => f.1 = JKey.s k).map (·.2)

/-- Python `==` between a column label (a key) and a sensor's `type`
value: true only when both are strings with the same text. -/
def labelEq : JKey → Json → Bool
  | .s v, .str w => v = w
  | .n i, .str w => toString i = w
  | _, _ => false

/-! ## Ingestion: `json_to_buildings` -/

/-- One cell of the table JSON: a number or `null`.  (Non-numeric cells
are outside the modelled contract and reported as errors.) -/
def cellOf : Json → Except PyErr (Option ℚ)
  | .num q => .ok (some q)
  | .null => .ok none
  | _ => .error .valueError

/-- Accumulates a key into a union list if not already present (used for
the first-appearance union of row keys). -/
def ins (acc : List JKey) (k : JKey) : List JKey :=
  if k ∈ acc then acc else acc ++ [k]

/-- The union of all columns' row keys, in order of first appearance. -/
def keyUnion (ls : List (List JKey)) : List JKey :=
  (ls.flatMap id).foldl ins []

/-- `pd.to_datetime(keys, unit='ms')` on one row key: a decimal-numeral
key parses to its integer, anything else raises. -/
def msOf : JKey → Except PyErr Int
  | .n i => .ok i
  | .s _ => .error .valueError

/-- `pd.DataFrame(df_json)` followed by the `to_datetime` re-indexing:
object-of-objects JSON to a `DataFrame`, aligning every column on the
union row index (absent keys become missing values). -/
def dfOfJson : Json → Except PyErr DataFrame
  | .obj cols => do
      let colMaps ← cols.mapM fun c =>
        match c.2 with
        | .obj rows => .ok (c.1, rows)
        | _ => .error (PyErr.valueError)
      let rawIndex := keyUnion (colMaps.map fun c => c.2.map (·.1))
      let vals ← colMaps.mapM fun c => do
        let cells ← rawIndex.mapM fun r =>
          match (c.2.find? fun f => f.1 = r).map (·.2) with
          | some cell => cellOf cell
          | none => .ok none
        pure (c.1, cells)
      let index ← rawIndex.mapM msOf
      pure ⟨index, vals⟩
  | _ => .error .valueError

/-- One element of the `sensors` list: `Building.Sensor(s["type"],
s["desc"], s["unit"])`, raising `KeyError` on a missing field and
`TypeError` when `s` is not a dict. -/
def sensorOfJson : Json → Except PyErr Sensor
  | .obj fs => do
      let t ← match jlookup fs "type" with
        | some v => Except.ok v
        | none => Except.error (PyErr.keyError "type")
      let d ← match jlookup fs "desc" with
        | some v => Except.ok v
        | none => Except.error (PyErr.keyError "desc")
      let u ← match jlookup fs "unit" with
        | some v => Except.ok v
        | none => Except.error (PyErr.keyError "unit")
      pure ⟨t, d, u⟩
  | _ => .error .typeError

/-- `json.loads` applied to a JSON value that should be a Python string:
a string parsing to `j` yields `j`; a non-JSON string raises a decode
error; a non-string raises `TypeError`. -/
def loads : Json → Except PyErr Json
  | .jstr j => .ok j
  | .str _ => .error .decodeError
  | .badstr _ => .error .decodeError
  | _ => .error .typeError

/-- The body of the `json_to_buildings` loop for one `(k, b)` item. -/
def buildingOfJson (k : JKey) : Json → Except PyErr Building
  | .obj fs => do
      let sensorsJson ← match jlookup fs "sensors" with
        | some v => Except.ok v
        | none => Except.error (PyErr.keyError "sensors")
      let sensors ← match sensorsJson with
        | .arr ss => ss.mapM sensorOfJson
        | _ => Except.error (PyErr.typeError)
      let dfField ← match jlookup fs "dataframe" with
        | some v => Except.ok v
        | none => Except.error (PyErr.keyError "dataframe")
      let dfJson ← loads dfField
      let df ← dfOfJson dfJson
      pure ⟨k, sensors, df⟩
  | _ => .error .typeError

/-- `json_to_buildings(data)`: converts the JSON representation of the
building collection into `Building` objects, keyed and named by the
top-level keys. -/
def json_to_buildings : Json → Except PyErr Coll
  | .obj items => items.mapM fun kb => do
      let b ← buildingOfJson kb.1 kb.2
      pure (kb.1, b)
  | _ => .error .typeError

/-! ## Column passes -/

/-- The non-missing values of a column in row order (Python
`[e for e in col if e == e]`). -/
def nonMissing (col : List (Option ℚ)) : List ℚ :=
  col.filterMap id

/-- `remove_nan_dict`: drops every column whose entries are all missing
(`dropna(axis=1, how="all")`). -/
def removeNanB (b : Building) : Building :=
  { b with dataframe := { b.dataframe with
      cols := b.dataframe.cols.filter fun c => !(nonMissing c.2).isEmpty } }

/-- `remove_nan_dict` over the collection. -/
def remove_nan_dict (data : Coll) : Coll :=
  data.map fun kb => (kb.1, removeNanB kb.2)

/-- The number of distinct non-missing values of a column (Python
`len({e for e in col if e == e})`). -/
def distinctCount (col : List (Option ℚ)) : Nat :=
  (nonMissing col).dedup.length

/-- `remove_unwanted_rows` on one building: drops each column whose
distinct non-missing value count is strictly below the threshold. -/
def removeUnwantedB (threshold : ℤ) (b : Building) : Building :=
  { b with dataframe := { b.dataframe with
      cols := b.dataframe.cols.filter fun c =>
        !(decide ((distinctCount c.2 : ℤ) < threshold)) } }

/-- `remove_unwanted_rows(data, threshold)` over the collection. -/
def remove_unwanted_rows (data : Coll) (threshold : ℤ) : Coll :=
  data.map fun kb => (kb.1, removeUnwantedB threshold kb.2)

/-- The pair comparison of `merge_duplicate_sensors`: with `xs` and `ys`
the non-missing sequences of columns `i < j`, column `j` is marked when
the lengths agree and the sequences are equal or differ in fewer than
`threshold` positions. -/
def sim (threshold : ℤ) (xs ys : List ℚ) : Bool :=
  xs.length = ys.length &&
    (xs = ys ||
      decide (((xs.zip ys).countP fun p => !(p.1 = p.2) : ℤ) < threshold))

/-- The non-missing sequence of the `i`-th column (empty when out of
range, which never happens at the call sites below). -/
def colVals (cols : List (JKey × List (Option ℚ))) (i : Nat) : List ℚ :=
  nonMissing ((cols.getD i (JKey.s "", [])).2)

/-- The `marked_for_deletion` set: the two nested loops over index pairs
`i < j`, accumulating the keys of marked columns.  Comparisons read the
unmodified table; deletions are applied only afterwards. -/
def markedOf (threshold : ℤ) (cols : List (JKey × List (Option ℚ))) :
    List JKey :=
  (List.range cols.length).foldl
    (fun acc i =>
      (List.range' (i + 1) (cols.length - (i + 1))).foldl
        (fun acc2 j =>
          if sim threshold (colVals cols i) (colVals cols j) then
            ins acc2 (cols.getD j (JKey.s "", [])).1
          else acc2)
        acc)
    []

/-- `merge_duplicate_sensors` on one building: drop every marked column. -/
def mergeB (threshold : ℤ) (b : Building) : Building :=
  { b with dataframe := { b.dataframe with
      cols := b.dataframe.cols.filter fun c =>
        !(decide (c.1 ∈ markedOf threshold b.dataframe.cols)) } }

/-- `merge_duplicate_sensors(data, threshold)` over the collection. -/
def merge_duplicate_sensors (data : Coll) (threshold : ℤ) : Coll :=
  data.map fun kb => (kb.1, mergeB threshold kb.2)

/-- Python `s.type in building.dataframe.keys()`. -/
def hasColumn (df : DataFrame) (ty : Json) : Bool :=
  df.cols.any fun c => labelEq c.1 ty

/-- `remove_leftover_sensors` on one building: keep only sensors whose
`type` matches a present column label. -/
def removeLeftoverB (b : Building) : Building :=
  { b with sensors := b.sensors.filter fun s => hasColumn b.dataframe s.type }

/-- `remove_leftover_sensors(data)` over the collection. -/
def remove_leftover_sensors (data : Coll) : Coll :=
  data.map fun kb => (kb.1, removeLeftoverB kb.2)

/-- `remove_empty_buildings(data)`: keep buildings with a non-empty
sensor list. -/
def remove_empty_buildings (data : Coll) : Coll :=
  data.filter fun kb => 0 < kb.2.sensors.length

/-! ## Interpolation -/

/-- The nearest known value at a position strictly before `p`
(position and value), scanning downward. -/
def prevKnown (col : List (Option ℚ)) : Nat → Option (Nat × ℚ)
  | 0 => none
  | p + 1 =>
    match col.getD p none with
    | some v => some (p, v)
    | none => prevKnown col p

/-- Scans upward from position `q` through at most `fuel` positions for
the first known value. -/
def nextKnownAux (col : List (Option ℚ)) : Nat → Nat → Option (Nat × ℚ)
  | _, 0 => none
  | q, fuel + 1 =>
    match col.getD q none with
    | some v => some (q, v)
    | none => nextKnownAux col (q + 1) fuel

/-- The nearest known value at a position strictly after `p`. -/
def nextKnown (col : List (Option ℚ)) (p : Nat) : Option (Nat × ℚ) :=
  nextKnownAux col (p + 1) (col.length - (p + 1))

/-- One cell of `df.interpolate(method='linear', limit_direction='both')`:
a present value is kept; a gap between known values is filled linearly by
row position; before the first or after the last known value the nearest
known value is held; a column with no known value stays missing. -/
def interpCell (col : List (Option ℚ)) (p : Nat) : Option ℚ :=
  match col.getD p none with
  | some v => some v
  | none =>
    match prevKnown col p, nextKnown col p with
    | some (a, va), some (b, vb) =>
        some (va + (vb - va) * (((p : ℚ) - a) / ((b : ℚ) - a)))
    | some (_, va), none => some va
    | none, some (_, vb) => some vb
    | none, none => none

/-- Interpolation of one column. -/
def interpCol (col : List (Option ℚ)) : List (Option ℚ) :=
  (List.range col.length).map (interpCell col)

/-- Interpolation of one building's table. -/
def interpolateB (b : Building) : Building :=
  { b with dataframe := { b.dataframe with
      cols := b.dataframe.cols.map fun c => (c.1, interpCol c.2) } }

/-- `interpolate_dict(data)` over the collection. -/
def interpolate_dict (data : Coll) : Coll :=
  data.map fun kb => (kb.1, interpolateB kb.2)

/-! ## Serialization (`JSONEncoder` + `json.dumps`) -/

/-- One cell back to JSON (`DataFrame.to_json`; NaN becomes `null`). -/
def cellToJson : Option ℚ → Json
  | some q => .num q
  | none => .null

/-- `DataFrame.to_json()`: object of columns, each an object from the
millisecond-epoch row labels to the cell values. -/
def dfToJson (df : DataFrame) : Json :=
  .obj (df.cols.map fun c =>
    (c.1, .obj ((df.index.zip c.2).map fun rc =>
      (JKey.n rc.1, cellToJson rc.2))))

/-- `dataclasses.asdict` on a sensor. -/
def sensorToJson (s : Sensor) : Json :=
  .obj [(JKey.s "type", s.type), (JKey.s "desc", s.desc),
        (JKey.s "unit", s.unit)]

/-- `dataclasses.asdict` on a building, with the `to_json` string for the
table. -/
def buildingToJson (b : Building) : Json :=
  .obj [(JKey.s "name", .str b.name.toStr),
        (JKey.s "sensors", .arr (b.sensors.map sensorToJson)),
        (JKey.s "dataframe", .jstr (dfToJson b.dataframe))]

/-- The collection as a JSON object. -/
def collToJson (data : Coll) : Json :=
  .obj (data.map fun kb => (kb.1, buildingToJson kb.2))

/-- `json.dumps(data, cls=JSONEncoder)`: the returned Python string,
modelled by its parse. -/
def dumps (data : Coll) : Json :=
  .jstr (collToJson data)

/-! ## The endpoint handlers of `main.py` -/

/-- Python truthiness of the `payload` body value (`if not payload`). -/
def pyFalsy : Json → Bool
  | .null => true
  | .bool b => !b
  | .num q => q = 0
  | .str s => s.isEmpty
  | .jstr _ => false
  | .badstr e => e
  | .arr es => es.isEmpty
  | .obj fs => fs.isEmpty

/-- The per-building effect of the four in-place passes of `/clean`, in
pipeline order. -/
def cleanB (b : Building) : Building :=
  removeLeftoverB (removeUnwantedB 10 (removeNanB (mergeB 10 b)))

/-- The fixed pipeline of the `/clean` endpoint. -/
def clean_pipeline (buildings : Coll) : Coll :=
  remove_empty_buildings
    (remove_leftover_sensors
      (remove_unwanted_rows
        (remove_nan_dict (merge_duplicate_sensors buildings 10)) 10))

/-- `clean_data(payload)`: the `/clean` handler.  An empty payload is a
400; any exception from `json.loads` or the pipeline is caught and
surfaced as a generic 500. -/
def clean_data (payload : Json) : Except HTTPError Json :=
  if pyFalsy payload then
    .error ⟨400, "Payload can not be empty"⟩
  else
    match loads payload with
    | .error _ => .error ⟨500, "Internal Server Error"⟩
    | .ok data =>
      match json_to_buildings data with
      | .error _ => .error ⟨500, "Internal Server Error"⟩
      | .ok buildings => .ok (dumps (clean_pipeline buildings))

/-- `interpolate_data(payload)`: the `/interpolate` handler. -/
def interpolate_data (payload : Json) : Except HTTPError Json :=
  if pyFalsy payload then
    .error ⟨400, "Payload can not be empty"⟩
  else
    match loads payload with
    | .error _ => .error ⟨500, "Internal Server Error"⟩
    | .ok data =>
      match json_to_buildings data with
      | .error _ => .error ⟨500, "Internal Server Error"⟩
      | .ok buildings => .ok (dumps (interpolate_dict buildings))

/-! ## Well-formedness

The shapes that ingestion actually produces, used to state the
serialize/parse round trip. -/

/-- A table is well-formed when its row labels are distinct, every column
has one value per row, and a column-less table has no rows (a pandas
`to_json`/re-parse cycle keeps exactly these shapes). -/
def DataFrame.WF (df : DataFrame) : Prop :=
  df.index.Nodup ∧ (∀ c ∈ df.cols, c.2.length = df.index.length) ∧
    (df.cols = [] → df.index = [])

/-- A building is well-formed under its dictionary key when its name is
that key and its table is well-formed. -/
def BuildingWF (k : JKey) (b : Building) : Prop :=
  b.name = k ∧ b.dataframe.WF

/-- All buildings of a collection are well-formed. -/
def CollWF (data : Coll) : Prop := ∀ kb ∈ data, BuildingWF kb.1 kb.2

/-! ## Lemmas on the duplicate merger -/

theorem mem_ins {k x : JKey} {acc : List JKey} :
    k ∈ ins acc x ↔ k ∈ acc ∨ k = x := by
  unfold ins
  by_cases hx : x ∈ acc
  · simp only [hx, if_true]
    constructor
    · exact Or.inl
    · rintro (h | rfl)
      · exact h
      · exact hx
  · simp [hx]

theorem mem_foldl_mark {P : Nat → Bool} {g : Nat → JKey} (L : List Nat)
    (acc : List JKey) (k : JKey) :
    k ∈ L.foldl (fun a j => if P j then ins a (g j) else a) acc ↔
      k ∈ acc ∨ ∃ j ∈ L, P j = true ∧ k = g j := by
  induction L generalizing acc with
  | nil => simp
  | cons j L ih =>
    by_cases hj : P j = true <;>
      simp only [List.foldl_cons, hj, if_true, if_false, ih, mem_ins,
        List.mem_cons] <;> aesop

theorem mem_foldl_outer {F : List JKey → Nat → List JKey} {Q : Nat → JKey → Prop}
    (hF : ∀ acc i k, k ∈ F acc i ↔ k ∈ acc ∨ Q i k) (L : List Nat)
    (acc : List JKey) (k : JKey) :
    k ∈ L.foldl F acc ↔ k ∈ acc ∨ ∃ i ∈ L, Q i k := by
  induction L generalizing acc with
  | nil => simp
  | cons i L ih =>
    simp only [List.foldl_cons, ih, hF, List.mem_cons]
    aesop

/-- The `marked_for_deletion` set, characterized declaratively: a key is
marked exactly when it labels a column `j` that some earlier column `i`
finds similar — with all comparisons reading the original table. -/
theorem markedOf_mem (t : ℤ) (cols : List (JKey × List (Option ℚ)))
    (k : JKey) :
    k ∈ markedOf t cols ↔ ∃ i j, i < j ∧ j < cols.length ∧
      sim t (colVals cols i) (colVals cols j) = true ∧
      k = (cols.getD j (JKey.s "", [])).1 := by
  unfold markedOf
  rw [mem_foldl_outer (Q := fun i k => ∃ j ∈ List.range' (i + 1) (cols.length - (i + 1)),
        sim t (colVals cols i) (colVals cols j) = true ∧
        k = (cols.getD j (JKey.s "", [])).1)
      (fun acc i k => mem_foldl_mark _ acc k)]
  simp only [List.mem_range, List.mem_range'_1, List.not_mem_nil, false_or]
  constructor
  · rintro ⟨i, hi, j, ⟨hij, hjn⟩, hsim, hk⟩
    exact ⟨i, j, by omega, by omega, hsim, hk⟩
  · rintro ⟨i, j, hij, hjn, hsim, hk⟩
    exact ⟨i, by omega, j, ⟨by omega, by omega⟩, hsim, hk⟩

theorem sim_self (t : ℤ) (xs : List ℚ) : sim t xs xs = true := by
  simp [sim]

/-- C6: comparisons in `merge_duplicate_sensors` read only the original
table — a column marked by an earlier pair still serves, with its original
values, as comparison source for every later pair, because the marked set
is characterized by the pairwise comparisons on the unmodified columns
alone, and deletion happens in one pass afterwards (dropping exactly the
marked labels). -/
theorem merge_marking_does_not_short_circuit (t : ℤ) (b : Building)
    (k : JKey) :
    (k ∈ markedOf t b.dataframe.cols ↔ ∃ i j, i < j ∧
      j < b.dataframe.cols.length ∧
      sim t (colVals b.dataframe.cols i) (colVals b.dataframe.cols j) = true ∧
      k = (b.dataframe.cols.getD j (JKey.s "", [])).1) ∧
    (mergeB t b).dataframe.cols = b.dataframe.cols.filter
      (fun c => !(decide (c.1 ∈ markedOf t b.dataframe.cols))) :=
  ⟨markedOf_mem t b.dataframe.cols k, rfl⟩

/-- C5: if two columns `i < j` of a building have identical non-missing
value sequences, `merge_duplicate_sensors` (for any threshold, in
particular any `threshold ≥ 1`) drops column `j`: no column with its
label survives in that building's table. -/
theorem merge_drops_exact_duplicate (data : Coll) (t : ℤ) (k : JKey)
    (b : Building) (i j : Nat) (hmem : (k, b) ∈ data) (ht : 1 ≤ t)
    (hij : i < j) (hj : j < b.dataframe.cols.length)
    (heq : colVals b.dataframe.cols i = colVals b.dataframe.cols j) :
    (k, mergeB t b) ∈ merge_duplicate_sensors data t ∧
    ∀ c ∈ (mergeB t b).dataframe.cols,
      c.1 ≠ (b.dataframe.cols.getD j (JKey.s "", [])).1 := by
  constructor
  · exact List.mem_map.mpr ⟨(k, b), hmem, rfl⟩
  · intro c hc hck
    have hmark : (b.dataframe.cols.getD j (JKey.s "", [])).1 ∈
        markedOf t b.dataframe.cols :=
      (markedOf_mem t b.dataframe.cols _).mpr
        ⟨i, j, hij, hj, heq ▸ sim_self t _, rfl⟩
    have h2 := (List.mem_filter.mp hc).2
    rw [hck, Bool.not_eq_true', decide_eq_false_iff_not] at h2
    exact h2 hmark

/-- C4: on any non-empty payload that parses and ingests, `clean_data` is
exactly the fixed composition ingestion → merge(10) → remove_nan →
remove_unwanted(10) → remove_leftover → remove_empty, returning the
serialization of the last step's output. -/
theorem clean_is_fixed_pipeline (payload data : Json) (buildings : Coll)
    (h1 : pyFalsy payload = false) (h2 : loads payload = .ok data)
    (h3 : json_to_buildings data = .ok buildings) :
    clean_data payload = .ok (dumps (remove_empty_buildings
      (remove_leftover_sensors (remove_unwanted_rows
        (remove_nan_dict (merge_duplicate_sensors buildings 10)) 10)))) := by
  simp [clean_data, clean_pipeline, h1, h2, h3]

theorem clean_is_fixed_pipeline_witness :
    pyFalsy (Json.jstr (Json.obj [])) = false ∧
    loads (Json.jstr (Json.obj [])) = .ok (Json.obj []) ∧
    json_to_buildings (Json.obj []) = .ok [] ∧
    clean_data (Json.jstr (Json.obj [])) = .ok (dumps
      (remove_empty_buildings (remove_leftover_sensors
        (remove_unwanted_rows (remove_nan_dict
          (merge_duplicate_sensors [] 10)) 10)))) :=
  ⟨rfl, rfl, rfl, clean_is_fixed_pipeline _ _ _ rfl rfl rfl⟩

/-- C5 witness: two identical columns at threshold 1; the second is
dropped. -/
theorem merge_drops_exact_duplicate_witness :
    ((JKey.s "B",
        (⟨JKey.s "B", [], ⟨[0, 1],
          [(JKey.s "a", [some 1, none]), (JKey.s "b", [none, some 1])]⟩⟩ :
          Building)) ∈
      ([(JKey.s "B", ⟨JKey.s "B", [], ⟨[0, 1],
          [(JKey.s "a", [some 1, none]), (JKey.s "b", [none, some 1])]⟩⟩)] :
        Coll)) ∧
    (1 : ℤ) ≤ 1 ∧ 0 < 1 ∧
    1 < ([(JKey.s "a", [some (1 : ℚ), none]),
          (JKey.s "b", [none, some 1])] : List (JKey × List (Option ℚ))).length ∧
    colVals [(JKey.s "a", [some 1, none]), (JKey.s "b", [none, some 1])] 0 =
      colVals [(JKey.s "a", [some 1, none]), (JKey.s "b", [none, some 1])] 1 ∧
    ∀ c ∈ (mergeB 1 ⟨JKey.s "B", [], ⟨[0, 1],
        [(JKey.s "a", [some 1, none]), (JKey.s "b", [none, some 1])]⟩⟩).dataframe.cols,
      c.1 ≠ (([(JKey.s "a", [some (1 : ℚ), none]),
          (JKey.s "b", [none, some 1])] :
          List (JKey × List (Option ℚ))).getD 1 (JKey.s "", [])).1 :=
  ⟨List.mem_singleton.mpr rfl, le_refl 1, Nat.zero_lt_one, by decide, by decide,
    (merge_drops_exact_duplicate
      [(JKey.s "B", ⟨JKey.s "B", [], ⟨[0, 1],
        [(JKey.s "a", [some 1, none]), (JKey.s "b", [none, some 1])]⟩⟩)]
      1 (JKey.s "B") _ 0 1 (List.mem_singleton.mpr rfl) (le_refl 1)
      Nat.zero_lt_one (by decide) (by decide)).2⟩

/-- C2 (counterexample): with threshold 2, a column holding the two
non-missing values `1, 1` is dropped by `remove_unwanted_rows`, although
its count of non-missing values equals the threshold — the pass counts
distinct values, not all non-missing values, so the claim as stated
fails. -/
theorem remove_unwanted_rows_nonmissing_count_refuted :
    (remove_unwanted_rows
        [(JKey.s "B", ⟨JKey.s "B", [],
            ⟨[0, 1], [(JKey.s "a", [some 1, some 1])]⟩⟩)] 2).map
        (fun kb => kb.2.dataframe.cols) = [[]] ∧
    (nonMissing [some (1 : ℚ), some 1]).length = 2 := by
  constructor
  · rfl
  · rfl

/-- C2 (amended): `remove_unwanted_rows` keeps exactly the columns whose
number of **distinct** non-missing values is at least the threshold; in
particular a column with exactly `threshold` distinct non-missing values
is retained. -/
theorem remove_unwanted_rows_keeps_distinct_count (data : Coll) (t : ℤ)
    (k : JKey) (b : Building) (hmem : (k, b) ∈ data) :
    (k, removeUnwantedB t b) ∈ remove_unwanted_rows data t ∧
    List.Sublist (removeUnwantedB t b).dataframe.cols b.dataframe.cols ∧
    ∀ c ∈ b.dataframe.cols,
      (c ∈ (removeUnwantedB t b).dataframe.cols ↔
        t ≤ ((nonMissing c.2).toFinset.card : ℤ)) := by
  refine ⟨List.mem_map.mpr ⟨(k, b), hmem, rfl⟩,
    List.filter_sublist _, fun c hc => ?_⟩
  rw [show (removeUnwantedB t b).dataframe.cols = b.dataframe.cols.filter
      (fun c => !(decide ((distinctCount c.2 : ℤ) < t))) from rfl,
    List.mem_filter]
  constructor
  · rintro ⟨-, hpred⟩
    rw [Bool.not_eq_true', decide_eq_false_iff_not, not_lt] at hpred
    rwa [distinctCount, ← List.card_toFinset] at hpred
  · intro hcard
    refine ⟨hc, ?_⟩
    rw [Bool.not_eq_true', decide_eq_false_iff_not, not_lt]
    rwa [distinctCount, ← List.card_toFinset]

theorem remove_unwanted_rows_keeps_distinct_count_witness :
    ((JKey.s "B",
        (⟨JKey.s "B", [], ⟨[0, 1], [(JKey.s "a", [some 1, some 2])]⟩⟩ :
          Building)) ∈
      ([(JKey.s "B", ⟨JKey.s "B", [], ⟨[0, 1],
          [(JKey.s "a", [some 1, some 2])]⟩⟩)] : Coll)) ∧
    ∀ c ∈ ([(JKey.s "a", [some (1 : ℚ), some 2])] :
        List (JKey × List (Option ℚ))),
      (c ∈ (removeUnwantedB 2 ⟨JKey.s "B", [], ⟨[0, 1],
          [(JKey.s "a", [some 1, some 2])]⟩⟩).dataframe.cols ↔
        (2 : ℤ) ≤ ((nonMissing c.2).toFinset.card : ℤ)) :=
  ⟨List.mem_singleton.mpr rfl,
    (remove_unwanted_rows_keeps_distinct_count
      [(JKey.s "B", ⟨JKey.s "B", [], ⟨[0, 1],
        [(JKey.s "a", [some 1, some 2])]⟩⟩)] 2 (JKey.s "B") _
      (List.mem_singleton.mpr rfl)).2.2⟩

/-- C1 (counterexample): the Clean pipeline does not reconcile in both
directions.  A building with sensor list `[a]` and table columns `a`
(10 distinct values) and `x` (11 distinct values, so never compared as a
duplicate and above the cardinality threshold) survives Clean with column
`x` still present although no sensor has type `x`. -/
theorem clean_sensor_column_invariant_refuted :
    ¬ ∀ (buildings : Coll) (k : JKey) (b : Building),
        (k, b) ∈ clean_pipeline buildings →
        (∀ s ∈ b.sensors, hasColumn b.dataframe s.type = true) ∧
        (∀ c ∈ b.dataframe.cols, ∃ s ∈ b.sensors,
          labelEq c.1 s.type = true) := by
  intro h
  have hpipe : clean_pipeline [(JKey.s "B",
      ⟨JKey.s "B", [⟨Json.str "a", Json.str "d", Json.str "u"⟩],
        ⟨[0, 1, 2, 3, 4, 5, 6, 7, 8, 9, 10],
         [(JKey.s "a", [some 0, some 1, some 2, some 3, some 4, some 5,
            some 6, some 7, some 8, some 9, none]),
          (JKey.s "x", [some 100, some 101, some 102, some 103, some 104,
            some 105, some 106, some 107, some 108, some 109,
            some 110])]⟩⟩)] =
      [(JKey.s "B",
        ⟨JKey.s "B", [⟨Json.str "a", Json.str "d", Json.str "u"⟩],
          ⟨[0, 1, 2, 3, 4, 5, 6, 7, 8, 9, 10],
           [(JKey.s "a", [some 0, some 1, some 2, some 3, some 4, some 5,
              some 6, some 7, some 8, some 9, none]),
            (JKey.s "x", [some 100, some 101, some 102, some 103, some 104,
              some 105, some 106, some 107, some 108, some 109,
              some 110])]⟩⟩)] := by rfl
  have hmem := hpipe ▸ List.mem_singleton.mpr rfl
  obtain ⟨-, h2⟩ := h _ _ _ hmem
  obtain ⟨s, hs, hlab⟩ := h2 (JKey.s "x",
    [some 100, some 101, some 102, some 103, some 104, some 105, some 106,
     some 107, some 108, some 109, some 110]) (by decide)
  rw [List.mem_singleton.mp hs] at hlab
  exact absurd hlab (by decide)

/-- C1 (amended): after the Clean pipeline every sensor in a surviving
building's list has a matching column in its table (no orphaned sensors);
the converse direction does not hold — columns without a sensor may
remain. -/
theorem clean_no_orphaned_sensors (buildings : Coll) (k : JKey)
    (b : Building) (hmem : (k, b) ∈ clean_pipeline buildings) (s : Sensor)
    (hs : s ∈ b.sensors) : hasColumn b.dataframe s.type = true := by
  have h1 := (List.mem_filter.mp hmem).1
  obtain ⟨kb0, hkb0, heq⟩ := List.mem_map.mp h1
  have hb : b = removeLeftoverB kb0.2 := by
    have := congrArg Prod.snd heq
    exact this.symm
  rw [hb] at hs
  have := (List.mem_filter.mp hs).2
  rw [hb]
  exact this

theorem clean_no_orphaned_sensors_witness :
    (((JKey.s "B"),
      (⟨JKey.s "B", [⟨Json.str "a", Json.str "d", Json.str "u"⟩],
        ⟨[0, 1, 2, 3, 4, 5, 6, 7, 8, 9],
         [(JKey.s "a", [some 0, some 1, some 2, some 3, some 4, some 5,
            some 6, some 7, some 8, some 9])]⟩⟩ : Building)) ∈
      clean_pipeline [(JKey.s "B",
        ⟨JKey.s "B", [⟨Json.str "a", Json.str "d", Json.str "u"⟩],
          ⟨[0, 1, 2, 3, 4, 5, 6, 7, 8, 9],
           [(JKey.s "a", [some 0, some 1, some 2, some 3, some 4, some 5,
              some 6, some 7, some 8, some 9])]⟩⟩)]) ∧
    (⟨Json.str "a", Json.str "d", Json.str "u"⟩ : Sensor) ∈
      ([⟨Json.str "a", Json.str "d", Json.str "u"⟩] : List Sensor) ∧
    hasColumn ⟨[0, 1, 2, 3, 4, 5, 6, 7, 8, 9],
      [(JKey.s "a", [some 0, some 1, some 2, some 3, some 4, some 5,
        some 6, some 7, some 8, some 9])]⟩ (Json.str "a") = true :=
  ⟨List.mem_singleton.mpr rfl, List.mem_singleton.mpr rfl,
    clean_no_orphaned_sensors
      [(JKey.s "B", ⟨JKey.s "B", [⟨Json.str "a", Json.str "d", Json.str "u"⟩],
        ⟨[0, 1, 2, 3, 4, 5, 6, 7, 8, 9],
         [(JKey.s "a", [some 0, some 1, some 2, some 3, some 4, some 5,
            some 6, some 7, some 8, some 9])]⟩⟩)]
      (JKey.s "B")
      ⟨JKey.s "B", [⟨Json.str "a", Json.str "d", Json.str "u"⟩],
        ⟨[0, 1, 2, 3, 4, 5, 6, 7, 8, 9],
         [(JKey.s "a", [some 0, some 1, some 2, some 3, some 4, some 5,
            some 6, some 7, some 8, some 9])]⟩⟩
      (List.mem_singleton.mpr rfl)
      ⟨Json.str "a", Json.str "d", Json.str "u"⟩
      (List.mem_singleton.mpr rfl)⟩

/-- C3 (counterexample): a payload whose sensor record lacks `unit` makes
`clean_data` fail with the generic 500 "Internal Server Error" — not an
input-validation error describing what was expected (the only 400-class
response is the empty-payload check). -/
theorem malformed_input_validation_error_refuted :
    clean_data (Json.jstr (Json.obj [(JKey.s "B", Json.obj
      [(JKey.s "name", Json.str "B"),
       (JKey.s "sensors", Json.arr [Json.obj
         [(JKey.s "type", Json.str "a"), (JKey.s "desc", Json.str "d")]]),
       (JKey.s "dataframe", Json.jstr (Json.obj []))])])) =
      .error ⟨500, "Internal Server Error"⟩ ∧
    (500 : Nat) ≠ 400 := ⟨rfl, by decide⟩

/-- C3 (amended): ingestion failure (a building record lacking `sensors`
or `dataframe`, a sensor record lacking `type`/`desc`/`unit`, or a
`dataframe` field that is not valid JSON text) does make both operations
fail, but the failure is surfaced as the generic
`500 "Internal Server Error"`, not as a described validation error. -/
theorem ingestion_failures_surface_as_500 (payload data : Json) (e : PyErr)
    (h1 : pyFalsy payload = false) (h2 : loads payload = .ok data)
    (h3 : json_to_buildings data = .error e) :
    clean_data payload = .error ⟨500, "Internal Server Error"⟩ ∧
    interpolate_data payload = .error ⟨500, "Internal Server Error"⟩ ∧
    (∀ fs : List (JKey × Json), jlookup fs "type" = none ∨
        jlookup fs "desc" = none ∨ jlookup fs "unit" = none →
      ∃ e2, sensorOfJson (.obj fs) = .error e2) ∧
    (∀ s : String, ∃ e3, loads (.str s) = .error e3) ∧
    (∀ (k : JKey) (fs : List (JKey × Json)), jlookup fs "sensors" = none →
      buildingOfJson k (.obj fs) = .error (PyErr.keyError "sensors")) := by
  refine ⟨by simp [clean_data, h1, h2, h3], by simp [interpolate_data, h1, h2, h3],
    ?_, fun s => ⟨.decodeError, rfl⟩, ?_⟩
  · intro fs h
    rcases htype : jlookup fs "type" with _ | t
    · exact ⟨.keyError "type", by simp only [sensorOfJson, htype]; rfl⟩
    · rcases hdesc : jlookup fs "desc" with _ | d
      · exact ⟨.keyError "desc", by simp only [sensorOfJson, htype, hdesc]; rfl⟩
      · rcases hunit : jlookup fs "unit" with _ | u
        · exact ⟨.keyError "unit", by
            simp only [sensorOfJson, htype, hdesc, hunit]; rfl⟩
        · simp only [htype, hdesc, hunit] at h
          rcases h with h | h | h <;> exact absurd h (by simp)
  · intro k fs h
    simp only [buildingOfJson, h]; rfl

theorem ingestion_failures_surface_as_500_witness :
    pyFalsy (Json.jstr (Json.obj [(JKey.s "B", Json.obj
      [(JKey.s "name", Json.str "B"),
       (JKey.s "sensors", Json.arr [Json.obj
         [(JKey.s "type", Json.str "a"), (JKey.s "desc", Json.str "d")]]),
       (JKey.s "dataframe", Json.jstr (Json.obj []))])])) = false ∧
    loads (Json.jstr (Json.obj [(JKey.s "B", Json.obj
      [(JKey.s "name", Json.str "B"),
       (JKey.s "sensors", Json.arr [Json.obj
         [(JKey.s "type", Json.str "a"), (JKey.s "desc", Json.str "d")]]),
       (JKey.s "dataframe", Json.jstr (Json.obj []))])])) =
      .ok (Json.obj [(JKey.s "B", Json.obj
      [(JKey.s "name", Json.str "B"),
       (JKey.s "sensors", Json.arr [Json.obj
         [(JKey.s "type", Json.str "a"), (JKey.s "desc", Json.str "d")]]),
       (JKey.s "dataframe", Json.jstr (Json.obj []))])]) ∧
    json_to_buildings (Json.obj [(JKey.s "B", Json.obj
      [(JKey.s "name", Json.str "B"),
       (JKey.s "sensors", Json.arr [Json.obj
         [(JKey.s "type", Json.str "a"), (JKey.s "desc", Json.str "d")]]),
       (JKey.s "dataframe", Json.jstr (Json.obj []))])]) =
      .error (PyErr.keyError "unit") ∧
    interpolate_data (Json.jstr (Json.obj [(JKey.s "B", Json.obj
      [(JKey.s "name", Json.str "B"),
       (JKey.s "sensors", Json.arr [Json.obj
         [(JKey.s "type", Json.str "a"), (JKey.s "desc", Json.str "d")]]),
       (JKey.s "dataframe", Json.jstr (Json.obj []))])])) =
      .error ⟨500, "Internal Server Error"⟩ :=
  ⟨rfl, rfl, rfl,
    (ingestion_failures_surface_as_500
      (Json.jstr (Json.obj [(JKey.s "B", Json.obj
        [(JKey.s "name", Json.str "B"),
         (JKey.s "sensors", Json.arr [Json.obj
           [(JKey.s "type", Json.str "a"), (JKey.s "desc", Json.str "d")]]),
         (JKey.s "dataframe", Json.jstr (Json.obj []))])]))
      (Json.obj [(JKey.s "B", Json.obj
        [(JKey.s "name", Json.str "B"),
         (JKey.s "sensors", Json.arr [Json.obj
           [(JKey.s "type", Json.str "a"), (JKey.s "desc", Json.str "d")]]),
         (JKey.s "dataframe", Json.jstr (Json.obj []))])])
      (PyErr.keyError "unit") rfl rfl rfl).2.1⟩

/-! ## Lemmas on the interpolator -/

theorem interpCol_length (col : List (Option ℚ)) :
    (interpCol col).length = col.length := by
  simp [interpCol]

theorem interpCol_getElem? (col : List (Option ℚ)) (n : Nat)
    (hn : n < col.length) : (interpCol col)[n]? = some (interpCell col n) := by
  unfold interpCol
  rw [List.getElem?_map, List.getElem?_range hn]
  rfl

theorem interpCol_getD (col : List (Option ℚ)) (p : Nat)
    (hp : p < col.length) :
    (interpCol col).getD p none = interpCell col p := by
  rw [List.getD_eq_getElem?_getD, interpCol_getElem? col p hp]
  rfl

theorem getD_none_of_nonMissing_nil {col : List (Option ℚ)}
    (h : nonMissing col = []) (q : Nat) : col.getD q none = none := by
  rcases hq : col.getD q none with _ | v
  · rfl
  · exfalso
    rw [List.getD_eq_getElem?_getD] at hq
    rcases hg : col[q]? with _ | c
    · rw [hg] at hq
      exact Option.noConfusion hq
    · rw [hg] at hq
      have hc : c = some v := hq
      have hmem : some v ∈ col := hc ▸ List.getElem?_mem hg
      have := (List.filterMap_eq_nil_iff.mp h) (some v) hmem
      exact Option.noConfusion this

theorem prevKnown_none_of (col : List (Option ℚ)) (p : Nat)
    (h : ∀ q, q < p → col.getD q none = none) : prevKnown col p = none := by
  induction p with
  | zero => rfl
  | succ p ih =>
    have hp : col.getD p none = none := h p (Nat.lt_succ_self p)
    simp only [prevKnown, hp]
    exact ih fun q hq => h q (Nat.lt_succ_of_lt hq)

theorem prevKnown_eq_of (col : List (Option ℚ)) (k p : Nat) (v : ℚ)
    (hk : col.getD k none = some v) (hkp : k < p)
    (h : ∀ q, k < q → q < p → col.getD q none = none) :
    prevKnown col p = some (k, v) := by
  induction p with
  | zero => omega
  | succ p ih =>
    by_cases hpk : p = k
    · subst hpk
      simp only [prevKnown, hk]
    · have hq : col.getD p none = none := h p (by omega) (Nat.lt_succ_self p)
      simp only [prevKnown, hq]
      exact ih (by omega) fun q h1 h2 => h q h1 (by omega)

theorem prevKnown_isSome (col : List (Option ℚ)) (p k : Nat) (v : ℚ)
    (hk : col.getD k none = some v) (hkp : k < p) :
    (prevKnown col p).isSome := by
  induction p with
  | zero => omega
  | succ p ih =>
    rcases hs : col.getD p none with _ | w
    · have hkp2 : k < p := by
        rcases Nat.lt_succ_iff_lt_or_eq.mp hkp with h | h
        · exact h
        · subst h
          rw [hk] at hs
          exact Option.noConfusion hs
      simp only [prevKnown, hs]
      exact ih hkp2
    · simp only [prevKnown, hs, Option.isSome_some]

theorem nextKnownAux_none (col : List (Option ℚ)) (fuel : Nat) :
    ∀ start, (∀ q, start ≤ q → col.getD q none = none) →
      nextKnownAux col start fuel = none := by
  induction fuel with
  | zero => intro start h; rfl
  | succ fuel ih =>
    intro start h
    have hs : col.getD start none = none := h start (le_refl start)
    simp only [nextKnownAux, hs]
    exact ih (start + 1) fun q hq => h q (by omega)

theorem nextKnownAux_eq (col : List (Option ℚ)) (fuel : Nat) :
    ∀ start k v, col.getD k none = some v → start ≤ k → k < start + fuel →
      (∀ q, start ≤ q → q < k → col.getD q none = none) →
      nextKnownAux col start fuel = some (k, v) := by
  induction fuel with
  | zero => intro start k v _ _ h2 _; omega
  | succ fuel ih =>
    intro start k v hk h1 h2 h
    by_cases hs : start = k
    · subst hs
      simp only [nextKnownAux, hk]
    · have hq : col.getD start none = none := h start (le_refl _) (by omega)
      simp only [nextKnownAux, hq]
      exact ih (start + 1) k v hk (by omega) (by omega)
        fun q hq1 hq2 => h q (by omega) hq2

theorem nextKnownAux_isSome (col : List (Option ℚ)) (fuel : Nat) :
    ∀ start k v, col.getD k none = some v → start ≤ k → k < start + fuel →
      (nextKnownAux col start fuel).isSome := by
  induction fuel with
  | zero => intro start k v _ _ h2; omega
  | succ fuel ih =>
    intro start k v hk h1 h2
    rcases hs : col.getD start none with _ | w
    · have hsk : start ≠ k := by
        intro h
        subst h
        rw [hk] at hs
        exact Option.noConfusion hs
      simp only [nextKnownAux, hs]
      exact ih (start + 1) k v hk (by omega) (by omega)
    · simp only [nextKnownAux, hs, Option.isSome_some]

theorem interpCol_of_no_known (col : List (Option ℚ))
    (h : nonMissing col = []) : interpCol col = col := by
  have hall := getD_none_of_nonMissing_nil h
  apply List.ext_getElem?
  intro n
  by_cases hn : n < col.length
  · rw [interpCol_getElem? col n hn]
    have hcell : interpCell col n = none := by
      simp only [interpCell, hall n]
      rw [prevKnown_none_of col n fun q _ => hall q,
        show nextKnown col n = none from
          nextKnownAux_none col _ _ fun q _ => hall q]
    rw [hcell, List.getElem?_eq_getElem hn]
    have := hall n
    rw [List.getD_eq_getElem?_getD, List.getElem?_eq_getElem hn] at this
    exact congrArg some this.symm
  · rw [List.getElem?_eq_none (by rw [interpCol_length]; omega),
      List.getElem?_eq_none (by omega)]

theorem interpCell_isSome (col : List (Option ℚ)) (k : Nat) (v : ℚ)
    (hk : col.getD k none = some v) (hklen : k < col.length) (p : Nat)
    (hp : p < col.length) : (interpCell col p).isSome := by
  rcases hcp : col.getD p none with _ | w
  · rcases Nat.lt_trichotomy p k with h | h | h
    · have hnext : (nextKnown col p).isSome :=
        nextKnownAux_isSome col _ (p + 1) k v hk (by omega) (by omega)
      simp only [interpCell, hcp]
      rcases hpk : prevKnown col p with _ | pa <;>
        rcases hnk : nextKnown col p with _ | nb
      · rw [hnk] at hnext
        exact Bool.noConfusion hnext
      · exact Option.isSome_some
      · exact Option.isSome_some
      · exact Option.isSome_some
    · subst h
      rw [hk] at hcp
      exact Option.noConfusion hcp
    · have hprev : (prevKnown col p).isSome := prevKnown_isSome col p k v hk h
      simp only [interpCell, hcp]
      rcases hpk : prevKnown col p with _ | pa <;>
        rcases hnk : nextKnown col p with _ | nb
      · rw [hpk] at hprev
        exact Bool.noConfusion hprev
      · exact Option.isSome_some
      · exact Option.isSome_some
      · exact Option.isSome_some
  · simp only [interpCell, hcp, Option.isSome_some]

theorem interpCol_of_all_some (col : List (Option ℚ))
    (h : ∀ p, p < col.length → col.getD p none ≠ none) :
    interpCol col = col := by
  apply List.ext_getElem?
  intro n
  by_cases hn : n < col.length
  · rw [interpCol_getElem? col n hn]
    rcases hcn : col.getD n none with _ | w
    · exact absurd hcn (h n hn)
    · have hcell : interpCell col n = some w := by
        simp only [interpCell, hcn]
      rw [hcell, List.getElem?_eq_getElem hn]
      have := hcn
      rw [List.getD_eq_getElem?_getD, List.getElem?_eq_getElem hn] at this
      exact congrArg some this.symm
  · rw [List.getElem?_eq_none (by rw [interpCol_length]; omega),
      List.getElem?_eq_none (by omega)]

theorem interpCol_idem (col : List (Option ℚ)) :
    interpCol (interpCol col) = interpCol col := by
  rcases h : nonMissing col with _ | ⟨v, vs⟩
  · rw [interpCol_of_no_known col h, interpCol_of_no_known col h]
  · have hv : some v ∈ col := by
      have : v ∈ nonMissing col := by rw [h]; exact List.mem_cons_self v vs
      obtain ⟨x, hx, hid⟩ := List.mem_filterMap.mp this
      cases hid
      exact hx
    obtain ⟨k, hklen, hkval⟩ := List.mem_iff_getElem.mp hv
    have hk : col.getD k none = some v := by
      rw [List.getD_eq_getElem?_getD, List.getElem?_eq_getElem hklen, hkval]
      rfl
    apply interpCol_of_all_some
    intro p hp
    rw [interpCol_length] at hp
    rw [interpCol_getD col p hp]
    intro hnone
    have := interpCell_isSome col k v hk hklen p hp
    rw [hnone] at this
    exact Bool.noConfusion this

/-- C9: a missing value strictly between known values is filled by linear
interpolation against the row position: with nearest preceding known value
`va` at position `a` and nearest following known value `vb` at position
`b`, the filled cell is exactly `va + (vb - va) * ((p - a) / (b - a))` —
the point on the linear segment between the two neighbors. -/
theorem interpolation_fills_linear_segment (col : List (Option ℚ))
    (p a b : Nat) (va vb : ℚ) (hplen : p < col.length)
    (hp : col.getD p none = none) (hprev : prevKnown col p = some (a, va))
    (hnext : nextKnown col p = some (b, vb)) :
    (interpCol col).getD p none =
      some (va + (vb - va) * (((p : ℚ) - (a : ℚ)) / ((b : ℚ) - (a : ℚ)))) := by
  rw [interpCol_getD col p hplen]
  simp only [interpCell, hp, hprev, hnext]

/-- C9 witness: the spec's example column `1, missing, 3` is filled to
`1, 2, 3`. -/
theorem interpolation_fills_linear_segment_witness :
    (1 : Nat) < ([some 1, none, some 3] : List (Option ℚ)).length ∧
    ([some (1 : ℚ), none, some 3].getD 1 none = none) ∧
    prevKnown [some (1 : ℚ), none, some 3] 1 = some (0, 1) ∧
    nextKnown [some (1 : ℚ), none, some 3] 1 = some (2, 3) ∧
    (interpCol [some (1 : ℚ), none, some 3]).getD 1 none =
      some (1 + (3 - 1) * (((1 : ℚ) - (0 : ℚ)) / ((2 : ℚ) - (0 : ℚ)))) ∧
    interpCol [some (1 : ℚ), none, some 3] = [some 1, some 2, some 3] :=
  ⟨by decide, rfl, rfl, rfl,
    interpolation_fills_linear_segment [some 1, none, some 3] 1 0 2 1 3
      (by decide) rfl rfl rfl,
    by
      show [interpCell _ 0, interpCell _ 1, interpCell _ 2] = _
      simp only [interpCell, prevKnown, nextKnown, nextKnownAux]
      norm_num⟩

/-- C10: degenerate columns — with no known value, interpolation leaves
the column unchanged (entirely missing); with exactly one known value,
every entry becomes that value. -/
theorem interpolation_degenerate_columns (col : List (Option ℚ)) (v : ℚ) :
    (nonMissing col = [] → interpCol col = col) ∧
    (nonMissing col = [v] →
      interpCol col = List.replicate col.length (some v)) := by
  refine ⟨interpCol_of_no_known col, fun h => ?_⟩
  obtain ⟨l₁, a, l₂, hcol, h₁, ha, h₂⟩ := List.filterMap_eq_cons_iff.mp h
  have ha2 : a = some v := ha
  subst ha2
  subst hcol
  have hnone : ∀ q, q ≠ l₁.length →
      (l₁ ++ some v :: l₂).getD q none = none := by
    intro q hq
    rcases Nat.lt_trichotomy q l₁.length with hlt | heq | hgt
    · have hval : l₁[q] = none := by simpa using h₁ _ (List.getElem_mem hlt)
      rw [List.getD_eq_getElem?_getD, List.getElem?_append, if_pos hlt,
        List.getElem?_eq_getElem hlt, hval]
      rfl
    · exact absurd heq hq
    · rw [List.getD_eq_getElem?_getD, List.getElem?_append, if_neg (by omega)]
      rcases hq2 : (some v :: l₂)[q - l₁.length]? with _ | c
      · rfl
      · have hcm : c ∈ some v :: l₂ := List.getElem?_mem hq2
        rcases List.mem_cons.mp hcm with hcv | hcl
        · exfalso
          have : q - l₁.length = 0 := by
            by_contra hne
            rcases Nat.exists_eq_succ_of_ne_zero hne with ⟨m, hm⟩
            rw [hm] at hq2
            have : c ∈ l₂ := List.getElem?_mem (by simpa using hq2)
            have := List.filterMap_eq_nil_iff.mp h₂ c this
            rw [hcv] at this
            exact Option.noConfusion this
          omega
        · have hcnone := List.filterMap_eq_nil_iff.mp h₂ c hcl
          simp only [Option.getD_some, hq2]
          exact hcnone
  have hkval : (l₁ ++ some v :: l₂).getD l₁.length none = some v := by
    rw [List.getD_eq_getElem?_getD, List.getElem?_append,
      if_neg (by omega), Nat.sub_self, List.getElem?_cons_zero]
    rfl
  apply List.ext_getElem?
  intro n
  by_cases hn : n < (l₁ ++ some v :: l₂).length
  · rw [interpCol_getElem? _ n hn, List.getElem?_replicate, if_pos hn]
    refine congrArg some ?_
    rcases Nat.lt_trichotomy n l₁.length with hlt | heq | hgt
    · have hcn : (l₁ ++ some v :: l₂).getD n none = none := hnone n (by omega)
      simp only [interpCell, hcn]
      rw [prevKnown_none_of _ n fun q hq => hnone q (by omega),
        show nextKnown (l₁ ++ some v :: l₂) n = some (l₁.length, v) from
          nextKnownAux_eq _ _ (n + 1) l₁.length v hkval (by omega)
            (by rw [List.length_append, List.length_cons]; omega)
            fun q hq1 hq2 => hnone q (by omega)]
    · subst heq
      simp only [interpCell, hkval]
    · have hcn : (l₁ ++ some v :: l₂).getD n none = none := hnone n (by omega)
      simp only [interpCell, hcn]
      rw [prevKnown_eq_of _ l₁.length n v hkval hgt
          fun q hq1 hq2 => hnone q (by omega),
        show nextKnown (l₁ ++ some v :: l₂) n = none from
          nextKnownAux_none _ _ (n + 1) fun q hq => hnone q (by omega)]
  · rw [List.getElem?_eq_none (by rw [interpCol_length]; omega),
      List.getElem?_eq_none (by rw [List.length_replicate]; omega)]

/-- C10 witness: `[missing, 5, missing]` becomes all `5`; `[missing,
missing]` stays untouched. -/
theorem interpolation_degenerate_columns_witness :
    (nonMissing [none, none] = [] →
      interpCol [none, none] = ([none, none] : List (Option ℚ))) ∧
    (nonMissing [none, some 5, none] = [(5 : ℚ)] →
      interpCol [none, some 5, none] =
        List.replicate ([none, some 5, none] : List (Option ℚ)).length
          (some 5)) ∧
    nonMissing ([none, none] : List (Option ℚ)) = [] ∧
    nonMissing ([none, some 5, none] : List (Option ℚ)) = [5] :=
  ⟨(interpolation_degenerate_columns [none, none] 5).1,
    (interpolation_degenerate_columns [none, some 5, none] 5).2,
    rfl, rfl⟩

theorem interpCell_present (col : List (Option ℚ)) (p : Nat) (v : ℚ)
    (h : col.getD p none = some v) : interpCell col p = some v := by
  simp only [interpCell, h]

theorem getD_lt_length (col : List (Option ℚ)) (p : Nat) (v : ℚ)
    (h : col.getD p none = some v) : p < col.length := by
  by_contra hp
  rw [List.getD_eq_default _ _ (by omega)] at h
  exact Option.noConfusion h

/-- C8: `interpolate_dict` removes nothing — the building keys, names,
sensor lists, row indexes and column labels are unchanged, every column
keeps its length, and every present value is preserved; only missing
cells can change (be filled). -/
theorem interpolate_preserves_shape (data : Coll) :
    (interpolate_dict data).map Prod.fst = data.map Prod.fst ∧
    ∀ k b, (k, b) ∈ data →
      (k, interpolateB b) ∈ interpolate_dict data ∧
      (interpolateB b).name = b.name ∧
      (interpolateB b).sensors = b.sensors ∧
      (interpolateB b).dataframe.index = b.dataframe.index ∧
      (interpolateB b).dataframe.cols.map Prod.fst =
        b.dataframe.cols.map Prod.fst ∧
      ∀ c ∈ b.dataframe.cols,
        (c.1, interpCol c.2) ∈ (interpolateB b).dataframe.cols ∧
        (interpCol c.2).length = c.2.length ∧
        ∀ p v, c.2.getD p none = some v →
          (interpCol c.2).getD p none = some v := by
  constructor
  · unfold interpolate_dict
    rw [List.map_map]
    rfl
  · intro k b hkb
    refine ⟨List.mem_map.mpr ⟨(k, b), hkb, rfl⟩, rfl, rfl, rfl, ?_, ?_⟩
    · show (b.dataframe.cols.map fun c => (c.1, interpCol c.2)).map Prod.fst = _
      rw [List.map_map]
      rfl
    · intro c hc
      refine ⟨List.mem_map.mpr ⟨c, hc, rfl⟩, interpCol_length c.2, ?_⟩
      intro p v hv
      rw [interpCol_getD c.2 p (getD_lt_length c.2 p v hv)]
      exact interpCell_present c.2 p v hv

theorem interpolate_preserves_shape_witness :
    ((JKey.s "B",
        (⟨JKey.s "B", [], ⟨[0, 1], [(JKey.s "a", [some 1, none])]⟩⟩ :
          Building)) ∈
      ([(JKey.s "B", ⟨JKey.s "B", [],
          ⟨[0, 1], [(JKey.s "a", [some 1, none])]⟩⟩)] : Coll)) ∧
    ((JKey.s "a", [some (1 : ℚ), none]) ∈
      ([(JKey.s "a", [some 1, none])] : List (JKey × List (Option ℚ)))) ∧
    ([some (1 : ℚ), none].getD 0 none = some 1) ∧
    (interpolateB ⟨JKey.s "B", [],
        ⟨[0, 1], [(JKey.s "a", [some 1, none])]⟩⟩).sensors = [] ∧
    (interpCol [some (1 : ℚ), none]).getD 0 none = some 1 :=
  ⟨List.mem_singleton.mpr rfl, List.mem_singleton.mpr rfl, rfl, rfl,
    ((((interpolate_preserves_shape
        [(JKey.s "B", ⟨JKey.s "B", [],
          ⟨[0, 1], [(JKey.s "a", [some 1, none])]⟩⟩)]).2
      (JKey.s "B") ⟨JKey.s "B", [], ⟨[0, 1], [(JKey.s "a", [some 1, none])]⟩⟩
      (List.mem_singleton.mpr rfl)).2.2.2.2.2
      (JKey.s "a", [some 1, none]) (List.mem_singleton.mpr rfl)).2.2 0 1 rfl)⟩

/-! ## The serialize/parse round trip -/

theorem except_bind_ok {α β : Type} (a : α) (g : α → Except PyErr β) :
    (Except.ok a >>= g) = g a := rfl

theorem except_bind_error {α β : Type} (e : PyErr) (g : α → Except PyErr β) :
    ((Except.error e : Except PyErr α) >>= g) = .error e := rfl

theorem except_pure {α : Type} (a : α) :
    (pure a : Except PyErr α) = .ok a := rfl

theorem mapM_ok_of_pointwise {α β : Type} (f : α → Except PyErr β) :
    ∀ (l : List α) (l2 : List β), l.length = l2.length →
      (∀ t (h1 : t < l.length) (h2 : t < l2.length), f l[t] = .ok l2[t]) →
      l.mapM f = .ok l2 := by
  intro l
  induction l with
  | nil =>
    intro l2 hlen _
    rw [List.length_nil] at hlen
    rw [List.eq_nil_of_length_eq_zero hlen.symm]
    rfl
  | cons a l ih =>
    intro l2 hlen h
    rcases l2 with _ | ⟨b, l2⟩
    · exact absurd hlen (by simp)
    · have h0 : f a = .ok b := h 0 (by simp) (by simp)
      have htail : ∀ t (h1 : t < l.length) (h2 : t < l2.length),
          f l[t] = .ok l2[t] := by
        intro t h1 h2
        have := h (t + 1) (by simpa using Nat.succ_lt_succ h1)
          (by simpa using Nat.succ_lt_succ h2)
        simpa using this
      rw [List.mapM_cons, h0, except_bind_ok,
        ih l2 (by simpa using hlen) htail, except_bind_ok, except_pure]

theorem mapM_ok_length {α β : Type} (f : α → Except PyErr β) :
    ∀ (l : List α) (l2 : List β), l.mapM f = .ok l2 → l.length = l2.length := by
  intro l
  induction l with
  | nil =>
    intro l2 h
    rw [show List.mapM f [] = pure [] from rfl, except_pure] at h
    cases h
    rfl
  | cons a l ih =>
    intro l2 h
    rw [List.mapM_cons] at h
    cases hfa : f a with
    | error e => rw [hfa, except_bind_error] at h; cases h
    | ok b =>
      rw [hfa, except_bind_ok] at h
      cases hml : l.mapM f with
      | error e => rw [hml, except_bind_error] at h; cases h
      | ok bs =>
        rw [hml, except_bind_ok, except_pure] at h
        cases h
        simpa using ih bs hml

theorem mapM_ok_pointwise {α β : Type} (f : α → Except PyErr β) :
    ∀ (l : List α) (l2 : List β), l.mapM f = .ok l2 →
      ∀ t (h1 : t < l.length) (h2 : t < l2.length), f l[t] = .ok l2[t] := by
  intro l
  induction l with
  | nil => intro l2 _ t h1; exact absurd h1 (by simp)
  | cons a l ih =>
    intro l2 h t h1 h2
    rw [List.mapM_cons] at h
    cases hfa : f a with
    | error e => rw [hfa, except_bind_error] at h; cases h
    | ok b =>
      rw [hfa, except_bind_ok] at h
      cases hml : l.mapM f with
      | error e => rw [hml, except_bind_error] at h; cases h
      | ok bs =>
        rw [hml, except_bind_ok, except_pure] at h
        cases h
        rcases t with _ | t
        · simpa using hfa
        · simpa using ih bs hml t (by simpa using h1) (by simpa using h2)

theorem foldl_ins_of_subset :
    ∀ (m acc : List JKey), (∀ x ∈ m, x ∈ acc) → m.foldl ins acc = acc := by
  intro m
  induction m with
  | nil => intro acc _; rfl
  | cons a m ih =>
    intro acc h
    rw [List.foldl_cons, show ins acc a = acc from by
      simp [ins, h a (List.mem_cons_self a m)]]
    exact ih acc fun x hx => h x (List.mem_cons_of_mem a hx)

theorem foldl_ins_nodup :
    ∀ (K acc : List JKey), K.Nodup → (∀ x ∈ K, x ∉ acc) →
      K.foldl ins acc = acc ++ K := by
  intro K
  induction K with
  | nil => intro acc _ _; simp
  | cons a K ih =>
    intro acc hnd hdis
    rw [List.foldl_cons, show ins acc a = acc ++ [a] from by
      simp [ins, hdis a (List.mem_cons_self a K)]]
    rw [ih (acc ++ [a]) (List.nodup_cons.mp hnd).2 ?dis]
    · simp
    · case dis =>
        intro x hx
        rw [List.mem_append, List.mem_singleton]
        rintro (h | rfl)
        · exact hdis x (List.mem_cons_of_mem a hx) h
        · exact (List.nodup_cons.mp hnd).1 hx

theorem keyUnion_const (ls : List (List JKey)) (K : List JKey)
    (hK : K.Nodup) (h : ∀ l ∈ ls, l = K) (hne : ls ≠ []) :
    keyUnion ls = K := by
  rcases ls with _ | ⟨l, rest⟩
  · exact absurd rfl hne
  · have hl : l = K := h l (List.mem_cons_self l rest)
    subst hl
    unfold keyUnion
    rw [List.flatMap_cons, List.foldl_append, id,
      foldl_ins_nodup l [] hK (by simp), List.nil_append]
    apply foldl_ins_of_subset
    intro x hx
    obtain ⟨m, hm, hxm⟩ := List.mem_flatMap.mp hx
    rw [id] at hxm
    rw [h m (List.mem_cons_of_mem l hm)] at hxm
    exact hxm

theorem find?_rowsOf :
    ∀ (index : List Int) (col : List (Option ℚ)) (t : Nat),
      index.Nodup → col.length = index.length →
      ∀ (h1 : t < index.length) (h2 : t < col.length),
      ((index.zip col).map fun rc => (JKey.n rc.1, cellToJson rc.2)).find?
          (fun f => decide (f.1 = JKey.n index[t])) =
        some (JKey.n index[t], cellToJson col[t]) := by
  intro index
  induction index with
  | nil => intro col t _ _ h1; exact absurd h1 (by simp)
  | cons r index ih =>
    intro col t hnd hlen h1 h2
    rcases col with _ | ⟨v, col⟩
    · exact absurd hlen (by simp)
    rw [List.zip_cons_cons, List.map_cons]
    rcases t with _ | t
    · simp only [List.getElem_cons_zero]
      exact List.find?_cons_of_pos _ (by simp)
    · have h1a : t < index.length := by simpa using h1
      have h2a : t < col.length := by simpa using h2
      simp only [List.getElem_cons_succ]
      have hne : r ≠ index[t] := by
        intro hcontra
        have hmem : index[t] ∈ index := List.getElem_mem h1a
        rw [← hcontra] at hmem
        exact (List.nodup_cons.mp hnd).1 hmem
      rw [List.find?_cons_of_neg _ (by simp [hne])]
      exact ih col t (List.nodup_cons.mp hnd).2 (by simpa using hlen) h1a h2a

theorem cellOf_cellToJson (v : Option ℚ) : cellOf (cellToJson v) = .ok v := by
  cases v <;> rfl

theorem rowsOf_keys (index : List Int) (col : List (Option ℚ))
    (hlen : col.length = index.length) :
    (((index.zip col).map fun rc => (JKey.n rc.1, cellToJson rc.2)).map
      (·.1)) = index.map JKey.n := by
  rw [List.map_map]
  have : ((fun x : JKey × Json => x.1) ∘
      fun rc : Int × Option ℚ => (JKey.n rc.1, cellToJson rc.2)) =
      fun rc : Int × Option ℚ => JKey.n rc.1 := rfl
  rw [this, show (fun rc : Int × Option ℚ => JKey.n rc.1) =
    (JKey.n ∘ fun rc : Int × Option ℚ => rc.1) from rfl, ← List.map_map,
    List.map_fst_zip index col (by omega)]

theorem dfOfJson_dfToJson (df : DataFrame) (h : df.WF) :
    dfOfJson (dfToJson df) = .ok df := by
  obtain ⟨hnodup, hlen, hempty⟩ := h
  by_cases hc : df.cols = []
  · have hidx : df.index = [] := hempty hc
    rcases df with ⟨index, cols⟩
    simp only at hc hidx
    subst hc hidx
    rfl
  · have hcolMaps : ((df.cols.map fun c =>
        (c.1, Json.obj ((df.index.zip c.2).map fun rc =>
          (JKey.n rc.1, cellToJson rc.2)))).mapM fun c =>
        match c.2 with
        | .obj rows => Except.ok (c.1, rows)
        | _ => Except.error (PyErr.valueError)) =
        .ok (df.cols.map fun c =>
          (c.1, (df.index.zip c.2).map fun rc =>
            (JKey.n rc.1, cellToJson rc.2))) := by
      apply mapM_ok_of_pointwise
      · simp
      · intro t h1 h2
        simp only [List.getElem_map]
    have hraw : keyUnion (((df.cols.map fun c =>
        (c.1, (df.index.zip c.2).map fun rc =>
          (JKey.n rc.1, cellToJson rc.2))).map fun c => c.2.map (·.1))) =
        df.index.map JKey.n := by
      apply keyUnion_const
      · have hinj : Function.Injective JKey.n := fun a b h => JKey.n.inj h
        exact hnodup.map hinj
      · intro l hl
        obtain ⟨c, hcmem, hceq⟩ := List.mem_map.mp hl
        obtain ⟨c0, hc0mem, hc0eq⟩ := List.mem_map.mp hcmem
        subst hceq
        subst hc0eq
        exact rowsOf_keys df.index c0.2 (hlen c0 hc0mem)
      · simpa using hc
    simp only [dfToJson, dfOfJson]
    rw [hcolMaps, except_bind_ok]
    simp only [hraw]
    have hvals : ((df.cols.map fun c =>
        (c.1, (df.index.zip c.2).map fun rc =>
          (JKey.n rc.1, cellToJson rc.2))).mapM
          fun c : JKey × List (JKey × Json) => do
          let cells ← (df.index.map JKey.n).mapM fun r =>
            match ((c.2.find? fun f : JKey × Json => f.1 = r).map
                fun f : JKey × Json => f.2) with
            | some cell => cellOf cell
            | none => .ok none
          pure (c.1, cells)) = .ok df.cols := by
      apply mapM_ok_of_pointwise
      · simp
      · intro t h1 h2
        simp only [List.getElem_map]
        have hcells : ((df.index.map JKey.n).mapM fun r =>
            match ((((df.index.zip df.cols[t].2).map fun rc =>
                (JKey.n rc.1, cellToJson rc.2))).find? fun f =>
                f.1 = r).map (·.2) with
            | some cell => cellOf cell
            | none => .ok none) = .ok df.cols[t].2 := by
          apply mapM_ok_of_pointwise
          · simp [hlen _ (List.getElem_mem h2)]
          · intro u hu1 hu2
            simp only [List.getElem_map]
            rw [find?_rowsOf df.index df.cols[t].2 u hnodup
              (hlen _ (List.getElem_mem h2)) (by simpa using hu1) hu2]
            exact cellOf_cellToJson _
        rw [hcells, except_bind_ok, except_pure]
    rw [hvals, except_bind_ok]
    have hindex : ((df.index.map JKey.n).mapM msOf) = .ok df.index := by
      apply mapM_ok_of_pointwise
      · simp
      · intro t h1 h2
        simp only [List.getElem_map]
        rfl
    rw [hindex, except_bind_ok, except_pure]

theorem sensorOfJson_sensorToJson (s : Sensor) :
    sensorOfJson (sensorToJson s) = .ok s := rfl

theorem buildingOfJson_buildingToJson (k : JKey) (b : Building)
    (h : BuildingWF k b) : buildingOfJson k (buildingToJson b) = .ok b := by
  obtain ⟨hname, hwf⟩ := h
  subst hname
  have hsens : (b.sensors.map sensorToJson).mapM sensorOfJson =
      .ok b.sensors := by
    apply mapM_ok_of_pointwise
    · simp
    · intro t h1 h2
      simp only [List.getElem_map]
      exact sensorOfJson_sensorToJson _
  have hstep : buildingOfJson b.name (buildingToJson b) = (do
      let sensors ← (b.sensors.map sensorToJson).mapM sensorOfJson
      Building.mk b.name sensors <$> dfOfJson (dfToJson b.dataframe)) := rfl
  rw [hstep, hsens, except_bind_ok, dfOfJson_dfToJson b.dataframe hwf]
  rfl

theorem json_to_buildings_collToJson (c : Coll) (h : CollWF c) :
    json_to_buildings (collToJson c) = .ok c := by
  have hstep : json_to_buildings (collToJson c) =
      ((c.map fun kb => (kb.1, buildingToJson kb.2)).mapM (fun kb => do
        let b ← buildingOfJson kb.1 kb.2
        pure (kb.1, b))) := rfl
  rw [hstep]
  apply mapM_ok_of_pointwise
  · simp
  · intro t h1 h2
    simp only [List.getElem_map]
    rw [buildingOfJson_buildingToJson _ _ (h _ (List.getElem_mem h2)),
      except_bind_ok, except_pure]

/-! ## Ingestion output is well-formed -/

theorem foldl_ins_nodup_acc :
    ∀ (m acc : List JKey), acc.Nodup → (m.foldl ins acc).Nodup := by
  intro m
  induction m with
  | nil => intro acc h; exact h
  | cons a m ih =>
    intro acc h
    rw [List.foldl_cons]
    apply ih
    unfold ins
    by_cases ha : a ∈ acc
    · simpa [ha] using h
    · simp only [ha, if_false]
      simpa [List.nodup_append] using ⟨h, ha⟩

theorem keyUnion_nodup (ls : List (List JKey)) : (keyUnion ls).Nodup :=
  foldl_ins_nodup_acc _ [] List.nodup_nil

theorem mapM_msOf_shape (raw : List JKey) (I : List Int)
    (h : raw.mapM msOf = .ok I) : raw = I.map JKey.n := by
  have hlen := mapM_ok_length msOf raw I h
  apply List.ext_getElem (by simpa using hlen)
  intro t h1 h2
  have hpt := mapM_ok_pointwise msOf raw I h t h1 (by omega)
  rcases hraw : raw[t] with v | i
  · rw [hraw] at hpt
    cases hpt
  · rw [hraw] at hpt
    have h2b : t < I.length := by omega
    have : i = I[t] := by
      have : msOf (JKey.n i) = .ok i := rfl
      rw [this] at hpt
      cases hpt
      rfl
    rw [List.getElem_map]
    exact congrArg JKey.n this

/-- Decomposes a successful `dfOfJson`: the result is built from the
parsed column maps with aligned lengths, distinct row labels, and no rows
when there are no columns. -/
theorem dfOfJson_WF (j : Json) (df : DataFrame) (h : dfOfJson j = .ok df) :
    df.WF := by
  cases j with
  | obj cols =>
    simp only [dfOfJson] at h
    cases hcm : cols.mapM fun c =>
        match c.2 with
        | Json.obj rows => Except.ok (c.1, rows)
        | _ => Except.error (PyErr.valueError) with
    | error e => rw [hcm, except_bind_error] at h; cases h
    | ok CM =>
      rw [hcm, except_bind_ok] at h
      cases hv : CM.mapM (fun c : JKey × List (JKey × Json) => do
          let cells ← (keyUnion (CM.map fun c : JKey × List (JKey × Json) =>
              c.2.map fun f : JKey × Json => f.1)).mapM fun r =>
            match ((c.2.find? fun f : JKey × Json => f.1 = r).map
                fun f : JKey × Json => f.2) with
            | some cell => cellOf cell
            | none => Except.ok none
          pure (c.1, cells)) with
      | error e => rw [hv, except_bind_error] at h; cases h
      | ok V =>
        rw [hv, except_bind_ok] at h
        cases hI : (keyUnion (CM.map fun c => c.2.map (·.1))).mapM msOf with
        | error e => rw [hI, except_bind_error] at h; cases h
        | ok I =>
          rw [hI, except_bind_ok, except_pure] at h
          cases h
          have hrawI : keyUnion (CM.map fun c => c.2.map (·.1)) =
              I.map JKey.n := mapM_msOf_shape _ I hI
          refine ⟨?_, ?_, ?_⟩
          · have := keyUnion_nodup (CM.map fun c => c.2.map (·.1))
            rw [hrawI] at this
            exact this.of_map JKey.n
          · intro c hc
            obtain ⟨t, ht, hct⟩ := List.mem_iff_getElem.mp hc
            have htCM : t < CM.length := by
              rw [mapM_ok_length _ CM V hv]; exact ht
            have hpt := mapM_ok_pointwise _ CM V hv t htCM ht
            cases hcells : (keyUnion (CM.map fun c => c.2.map (·.1))).mapM
                (fun r =>
                match ((CM[t].2.find?
                    fun f : JKey × Json => f.1 = r).map
                    fun f : JKey × Json => f.2) with
                | some cell => cellOf cell
                | none => Except.ok none) with
            | error e => rw [hcells, except_bind_error] at hpt; cases hpt
            | ok cells =>
              rw [hcells, except_bind_ok, except_pure] at hpt
              have hveq : V[t] = (CM[t].1, cells) := by
                injection hpt with h4
                exact h4.symm
              have hclen : cells.length =
                  (keyUnion (CM.map fun c => c.2.map (·.1))).length :=
                (mapM_ok_length _ _ _ hcells).symm
              have hIlen : (keyUnion (CM.map fun c => c.2.map (·.1))).length =
                  I.length := by rw [hrawI, List.length_map]
              rw [← hct, hveq]
              simpa using hclen.trans hIlen
          · intro hVnil
            subst hVnil
            have hlCM : CM.length = 0 := by
              simpa using mapM_ok_length _ CM [] hv
            have hCMnil : CM = [] := List.eq_nil_of_length_eq_zero hlCM
            subst hCMnil
            have h0 : keyUnion (List.map
                (fun c : JKey × List (JKey × Json) =>
                  List.map (fun f : JKey × Json => f.1) c.2)
                ([] : List (JKey × List (JKey × Json)))) = [] := rfl
            rw [h0] at hrawI
            have hIlen : I.length = 0 := by
              have := congrArg List.length hrawI
              simpa using this.symm
            show I = []
            exact List.eq_nil_of_length_eq_zero hIlen
  | null => cases h
  | bool b => cases h
  | num q => cases h
  | str s => cases h
  | jstr j => cases h
  | badstr e => cases h
  | arr es => cases h

theorem buildingOfJson_ok (k : JKey) (j : Json) (b : Building)
    (h : buildingOfJson k j = .ok b) : BuildingWF k b := by
  cases j with
  | obj fs =>
    simp only [buildingOfJson] at h
    cases hs : jlookup fs "sensors" with
    | none =>
      rw [hs] at h
      simp only [except_bind_ok, except_bind_error] at h
      exact Except.noConfusion h
    | some sj =>
      rw [hs] at h
      simp only [except_bind_ok, except_bind_error] at h
      cases sj with
      | arr ss =>
        simp only [except_bind_ok, except_bind_error] at h
        cases hsens : ss.mapM sensorOfJson with
        | error e =>
          rw [hsens] at h
          simp only [except_bind_ok, except_bind_error] at h
          exact Except.noConfusion h
        | ok sensors =>
          rw [hsens] at h
          simp only [except_bind_ok, except_bind_error] at h
          cases hd : jlookup fs "dataframe" with
          | none =>
            rw [hd] at h
            simp only [except_bind_ok, except_bind_error] at h
            exact Except.noConfusion h
          | some dfF =>
            rw [hd] at h
            simp only [except_bind_ok, except_bind_error] at h
            cases hld : loads dfF with
            | error e =>
              rw [hld] at h
              simp only [except_bind_ok, except_bind_error] at h
              exact Except.noConfusion h
            | ok dj =>
              rw [hld] at h
              simp only [except_bind_ok, except_bind_error] at h
              cases hdf : dfOfJson dj with
              | error e =>
                rw [hdf] at h
                simp only [except_bind_ok, except_bind_error] at h
                exact Except.noConfusion h
              | ok df =>
                rw [hdf] at h
                simp only [except_bind_ok, except_bind_error] at h
                have h2 : Except.ok (Building.mk k sensors df) =
                    Except.ok b := h
                injection h2 with h3
                rw [← h3]
                exact ⟨rfl, dfOfJson_WF dj df hdf⟩
      | null =>
        simp only [except_bind_ok, except_bind_error] at h
        exact Except.noConfusion h
      | bool b2 =>
        simp only [except_bind_ok, except_bind_error] at h
        exact Except.noConfusion h
      | num q =>
        simp only [except_bind_ok, except_bind_error] at h
        exact Except.noConfusion h
      | str s2 =>
        simp only [except_bind_ok, except_bind_error] at h
        exact Except.noConfusion h
      | jstr j2 =>
        simp only [except_bind_ok, except_bind_error] at h
        exact Except.noConfusion h
      | badstr e2 =>
        simp only [except_bind_ok, except_bind_error] at h
        exact Except.noConfusion h
      | obj fs2 =>
        simp only [except_bind_ok, except_bind_error] at h
        exact Except.noConfusion h
  | null => cases h
  | bool b2 => cases h
  | num q => cases h
  | str s2 => cases h
  | jstr j2 => cases h
  | badstr e2 => cases h
  | arr es => cases h

theorem json_to_buildings_WF (data : Json) (c : Coll)
    (h : json_to_buildings data = .ok c) : CollWF c := by
  cases data with
  | obj items =>
    simp only [json_to_buildings] at h
    intro kb hkb
    obtain ⟨t, ht, hct⟩ := List.mem_iff_getElem.mp hkb
    have htI : t < items.length := by
      rw [mapM_ok_length _ items c h]; exact ht
    have hpt := mapM_ok_pointwise _ items c h t htI ht
    cases hb : buildingOfJson items[t].1 items[t].2 with
    | error e => rw [hb, except_bind_error] at hpt; cases hpt
    | ok b =>
      rw [hb, except_bind_ok, except_pure] at hpt
      injection hpt with h4
      have := buildingOfJson_ok _ _ _ hb
      rw [← hct, ← h4]
      exact this
  | null => cases h
  | bool b2 => cases h
  | num q => cases h
  | str s2 => cases h
  | jstr j2 => cases h
  | badstr e2 => cases h
  | arr es => cases h

/-! ## Idempotence of the clean pipeline -/

theorem filter_pass_id {b : Building} {p : JKey × List (Option ℚ) → Bool}
    (h : ∀ c ∈ b.dataframe.cols, p c) :
    ({ b with dataframe := { b.dataframe with
        cols := b.dataframe.cols.filter p } } : Building) = b := by
  rcases b with ⟨nm, ss, ⟨idx, cols⟩⟩
  simp only at h ⊢
  rw [List.filter_eq_self.mpr h]

theorem getD_cols_eq_getElem (cols : List (JKey × List (Option ℚ)))
    (i : Nat) (hi : i < cols.length) :
    cols.getD i (JKey.s "", []) = cols[i] :=
  List.getD_eq_getElem cols (JKey.s "", []) hi

theorem mergeB_cols_pairwise (t : ℤ) (b : Building) :
    (mergeB t b).dataframe.cols.Pairwise
      (fun c d => sim t (nonMissing c.2) (nonMissing d.2) = false) := by
  have hpw : b.dataframe.cols.Pairwise
      (fun c d => sim t (nonMissing c.2) (nonMissing d.2) = true →
        d.1 ∈ markedOf t b.dataframe.cols) := by
    rw [List.pairwise_iff_getElem]
    intro i j hi hj hij hsim
    refine (markedOf_mem t _ _).mpr ⟨i, j, hij, hj, ?_, ?_⟩
    · unfold colVals
      rw [getD_cols_eq_getElem _ i hi, getD_cols_eq_getElem _ j hj]
      exact hsim
    · rw [getD_cols_eq_getElem _ j hj]
  have hf := hpw.filter
    (fun c => !(decide (c.1 ∈ markedOf t b.dataframe.cols)))
  refine hf.imp_of_mem ?_
  intro c d hc hd hR
  have hdnot : d.1 ∉ markedOf t b.dataframe.cols := by
    have := List.of_mem_filter hd
    simpa using this
  cases hsim : sim t (nonMissing c.2) (nonMissing d.2)
  · rfl
  · exact absurd (hR hsim) hdnot

theorem markedOf_nil_of_pairwise (t : ℤ)
    (cols : List (JKey × List (Option ℚ)))
    (h : cols.Pairwise fun c d =>
      sim t (nonMissing c.2) (nonMissing d.2) = false) :
    markedOf t cols = [] := by
  apply List.eq_nil_iff_forall_not_mem.mpr
  intro k hk
  obtain ⟨i, j, hij, hj, hsim, hkey⟩ := (markedOf_mem t cols k).mp hk
  have hfalse := List.pairwise_iff_getElem.mp h i j (by omega) hj hij
  unfold colVals at hsim
  rw [getD_cols_eq_getElem _ i (by omega), getD_cols_eq_getElem _ j hj,
    hfalse] at hsim
  cases hsim

theorem mergeB_eq_self (t : ℤ) (b : Building)
    (h : markedOf t b.dataframe.cols = []) : mergeB t b = b := by
  apply filter_pass_id
  intro c _
  rw [h]
  simp

theorem removeNanB_eq_self (b : Building)
    (h : ∀ c ∈ b.dataframe.cols, nonMissing c.2 ≠ []) :
    removeNanB b = b := by
  apply filter_pass_id
  intro c hc
  simpa using h c hc

theorem removeUnwantedB_eq_self (t : ℤ) (b : Building)
    (h : ∀ c ∈ b.dataframe.cols, ¬((distinctCount c.2 : ℤ) < t)) :
    removeUnwantedB t b = b := by
  apply filter_pass_id
  intro c hc
  simpa using h c hc

theorem removeLeftoverB_eq_self (b : Building)
    (h : ∀ s ∈ b.sensors, hasColumn b.dataframe s.type) :
    removeLeftoverB b = b := by
  rcases b with ⟨nm, ss, df⟩
  unfold removeLeftoverB
  simp only at h ⊢
  rw [List.filter_eq_self.mpr h]

theorem removeUnwantedB_establishes (t : ℤ) (b : Building) :
    ∀ c ∈ (removeUnwantedB t b).dataframe.cols,
      ¬((distinctCount c.2 : ℤ) < t) := by
  intro c hc
  have := List.of_mem_filter hc
  simpa using this

theorem removeLeftoverB_establishes (b : Building) :
    ∀ s ∈ (removeLeftoverB b).sensors,
      hasColumn (removeLeftoverB b).dataframe s.type := by
  intro s hs
  have hs2 : s ∈ b.sensors.filter fun s => hasColumn b.dataframe s.type := hs
  exact (List.mem_filter.mp hs2).2

theorem removeLeftoverB_dataframe (b : Building) :
    (removeLeftoverB b).dataframe = b.dataframe := rfl

theorem removeNanB_cols_sublist (b : Building) :
    List.Sublist (removeNanB b).dataframe.cols b.dataframe.cols :=
  List.filter_sublist _

theorem removeUnwantedB_cols_sublist (t : ℤ) (b : Building) :
    List.Sublist (removeUnwantedB t b).dataframe.cols b.dataframe.cols :=
  List.filter_sublist _

theorem cleanB_idem (b : Building) : cleanB (cleanB b) = cleanB b := by
  have hpair : (cleanB b).dataframe.cols.Pairwise
      (fun c d => sim 10 (nonMissing c.2) (nonMissing d.2) = false) := by
    have h1 := mergeB_cols_pairwise 10 b
    have h2 := h1.sublist (removeNanB_cols_sublist (mergeB 10 b))
    have h3 := h2.sublist
      (removeUnwantedB_cols_sublist 10 (removeNanB (mergeB 10 b)))
    exact h3
  have hdist : ∀ c ∈ (cleanB b).dataframe.cols,
      ¬((distinctCount c.2 : ℤ) < 10) := by
    intro c hc
    exact removeUnwantedB_establishes 10 (removeNanB (mergeB 10 b)) c hc
  have hsens : ∀ s ∈ (cleanB b).sensors,
      hasColumn (cleanB b).dataframe s.type :=
    removeLeftoverB_establishes _
  have hmerge : mergeB 10 (cleanB b) = cleanB b :=
    mergeB_eq_self 10 _ (markedOf_nil_of_pairwise 10 _ hpair)
  have hnan : removeNanB (cleanB b) = cleanB b := by
    apply removeNanB_eq_self
    intro c hc hnil
    have := hdist c hc
    rw [distinctCount, hnil] at this
    simp at this
  have hunw : removeUnwantedB 10 (cleanB b) = cleanB b :=
    removeUnwantedB_eq_self 10 _ hdist
  have hleft : removeLeftoverB (cleanB b) = cleanB b :=
    removeLeftoverB_eq_self _ hsens
  show removeLeftoverB (removeUnwantedB 10 (removeNanB
    (mergeB 10 (cleanB b)))) = cleanB b
  rw [hmerge, hnan, hunw, hleft]

theorem clean_pipeline_as_filter_map (data : Coll) :
    clean_pipeline data =
      (data.map fun kb => (kb.1, cleanB kb.2)).filter
        fun kb => decide (0 < kb.2.sensors.length) := by
  unfold clean_pipeline cleanB remove_empty_buildings
    remove_leftover_sensors remove_unwanted_rows remove_nan_dict
    merge_duplicate_sensors
  rw [List.map_map, List.map_map, List.map_map]
  rfl

theorem clean_pipeline_idem (data : Coll) :
    clean_pipeline (clean_pipeline data) = clean_pipeline data := by
  rw [clean_pipeline_as_filter_map data, clean_pipeline_as_filter_map]
  have hmap : ((data.map fun kb => (kb.1, cleanB kb.2)).filter
      (fun kb => decide (0 < kb.2.sensors.length))).map
        (fun kb => (kb.1, cleanB kb.2)) =
      (data.map fun kb => (kb.1, cleanB kb.2)).filter
        (fun kb => decide (0 < kb.2.sensors.length)) := by
    have : ∀ kb ∈ (data.map fun kb => (kb.1, cleanB kb.2)).filter
        (fun kb => decide (0 < kb.2.sensors.length)),
        (kb.1, cleanB kb.2) = kb := by
      intro kb hkb
      have hmem := List.mem_of_mem_filter hkb
      obtain ⟨kb0, _, hkb0⟩ := List.mem_map.mp hmem
      rw [← hkb0]
      simp only
      rw [cleanB_idem]
    calc ((data.map fun kb => (kb.1, cleanB kb.2)).filter
        (fun kb => decide (0 < kb.2.sensors.length))).map
          (fun kb => (kb.1, cleanB kb.2))
        = ((data.map fun kb => (kb.1, cleanB kb.2)).filter
            (fun kb => decide (0 < kb.2.sensors.length))).map id :=
          List.map_congr_left this
      _ = _ := List.map_id _
  rw [hmap, List.filter_filter]
  have hfun : (fun (a : JKey × Building) =>
      decide (0 < a.2.sensors.length) && decide (0 < a.2.sensors.length)) =
      fun kb => decide (0 < kb.2.sensors.length) := by
    funext a
    exact Bool.and_self _
  rw [hfun]

theorem mergeB_cols_sublist (t : ℤ) (b : Building) :
    List.Sublist (mergeB t b).dataframe.cols b.dataframe.cols :=
  List.filter_sublist _

theorem cleanB_cols_sublist (b : Building) :
    List.Sublist (cleanB b).dataframe.cols b.dataframe.cols :=
  ((removeUnwantedB_cols_sublist 10 (removeNanB (mergeB 10 b))).trans
    (removeNanB_cols_sublist (mergeB 10 b))).trans (mergeB_cols_sublist 10 b)

theorem clean_pipeline_WF (data : Coll) (h : CollWF data) :
    CollWF (clean_pipeline data) := by
  rw [clean_pipeline_as_filter_map]
  intro kb hkb
  have hmem := List.mem_of_mem_filter hkb
  have hpos : 0 < kb.2.sensors.length := by
    simpa using (List.mem_filter.mp hkb).2
  obtain ⟨kb0, hkb0, hkb0eq⟩ := List.mem_map.mp hmem
  obtain ⟨hname, hnd, hlen, _⟩ := h kb0 hkb0
  rw [← hkb0eq] at hpos ⊢
  refine ⟨?_, ?_, ?_, ?_⟩
  · show (cleanB kb0.2).name = kb0.1
    rw [show (cleanB kb0.2).name = kb0.2.name from rfl, hname]
  · show (cleanB kb0.2).dataframe.index.Nodup
    exact hnd
  · intro c hc
    have hcm : c ∈ kb0.2.dataframe.cols :=
      (cleanB_cols_sublist kb0.2).subset hc
    exact hlen c hcm
  · intro hcnil
    exfalso
    simp only at hpos
    obtain ⟨s, hs⟩ := List.exists_mem_of_length_pos hpos
    have hcol := removeLeftoverB_establishes
      (removeUnwantedB 10 (removeNanB (mergeB 10 kb0.2))) s hs
    unfold hasColumn at hcol
    obtain ⟨c, hc, -⟩ := List.any_eq_true.mp hcol
    rw [show (removeLeftoverB (removeUnwantedB 10 (removeNanB
      (mergeB 10 kb0.2)))).dataframe.cols = (cleanB kb0.2).dataframe.cols
      from rfl, hcnil] at hc
    exact List.not_mem_nil c hc

theorem interpolateB_WF (k : JKey) (b : Building) (h : BuildingWF k b) :
    BuildingWF k (interpolateB b) := by
  obtain ⟨hname, hnd, hlen, hemp⟩ := h
  refine ⟨hname, hnd, ?_, ?_⟩
  · intro c hc
    obtain ⟨c0, hc0, hc0eq⟩ := List.mem_map.mp hc
    rw [← hc0eq]
    show (interpCol c0.2).length = b.dataframe.index.length
    rw [interpCol_length]
    exact hlen c0 hc0
  · intro hcnil
    apply hemp
    have h2 : b.dataframe.cols.map (fun c => (c.1, interpCol c.2)) = [] :=
      hcnil
    exact List.map_eq_nil_iff.mp h2

theorem interpolate_dict_WF (data : Coll) (h : CollWF data) :
    CollWF (interpolate_dict data) := by
  intro kb hkb
  obtain ⟨kb0, hkb0, hkb0eq⟩ := List.mem_map.mp hkb
  rw [← hkb0eq]
  exact interpolateB_WF kb0.1 kb0.2 (h kb0 hkb0)

theorem interpolateB_idem (b : Building) :
    interpolateB (interpolateB b) = interpolateB b := by
  rcases b with ⟨nm, ss, ⟨idx, cols⟩⟩
  unfold interpolateB
  simp only
  rw [List.map_map]
  apply congrArg
  apply congrArg
  apply List.map_congr_left
  intro c _
  show (c.1, interpCol (interpCol c.2)) = (c.1, interpCol c.2)
  rw [interpCol_idem]

theorem interpolate_dict_idem (data : Coll) :
    interpolate_dict (interpolate_dict data) = interpolate_dict data := by
  unfold interpolate_dict
  rw [List.map_map]
  apply List.map_congr_left
  intro kb _
  show (kb.1, interpolateB (interpolateB kb.2)) = (kb.1, interpolateB kb.2)
  rw [interpolateB_idem]

/-- C7: both endpoints are idempotent: feeding the serialized output of
`clean_data` (resp. `interpolate_data`) back into the same endpoint
returns it unchanged. -/
theorem clean_interpolate_idempotent (p out out2 : Json) :
    (clean_data p = .ok out → clean_data out = .ok out) ∧
    (interpolate_data p = .ok out2 → interpolate_data out2 = .ok out2) := by
  constructor
  · intro h
    unfold clean_data at h
    by_cases hf : pyFalsy p
    · rw [if_pos hf] at h
      cases h
    · rw [if_neg hf] at h
      cases hld : loads p with
      | error e =>
        rw [hld] at h
        exact absurd ((rfl : (Except.error ⟨500, "Internal Server Error"⟩ :
          Except HTTPError Json) = _).trans h) (by simp)
      | ok d =>
        rw [hld] at h
        have h2 : (match json_to_buildings d with
            | Except.error _ =>
              (Except.error ⟨500, "Internal Server Error"⟩ :
                Except HTTPError Json)
            | Except.ok buildings =>
              Except.ok (dumps (clean_pipeline buildings))) =
            Except.ok out := h
        cases hjb : json_to_buildings d with
        | error e =>
          rw [hjb] at h2
          exact absurd ((rfl : (Except.error ⟨500, "Internal Server Error"⟩ :
            Except HTTPError Json) = _).trans h2) (by simp)
        | ok bs =>
          rw [hjb] at h2
          have h3 : Except.ok (dumps (clean_pipeline bs)) = Except.ok out := h2
          injection h3 with hout
          have hwf : CollWF (clean_pipeline bs) :=
            clean_pipeline_WF bs (json_to_buildings_WF d bs hjb)
          rw [← hout]
          unfold clean_data
          rw [if_neg (by rw [show pyFalsy (dumps (clean_pipeline bs)) =
              false from rfl]; exact Bool.false_ne_true)]
          show (match json_to_buildings (collToJson (clean_pipeline bs)) with
            | Except.error _ =>
              (Except.error ⟨500, "Internal Server Error"⟩ :
                Except HTTPError Json)
            | Except.ok buildings =>
              Except.ok (dumps (clean_pipeline buildings))) =
            Except.ok (dumps (clean_pipeline bs))
          rw [json_to_buildings_collToJson _ hwf]
          show Except.ok (dumps (clean_pipeline (clean_pipeline bs))) =
            Except.ok (dumps (clean_pipeline bs))
          rw [clean_pipeline_idem]
  · intro h
    unfold interpolate_data at h
    by_cases hf : pyFalsy p
    · rw [if_pos hf] at h
      cases h
    · rw [if_neg hf] at h
      cases hld : loads p with
      | error e =>
        rw [hld] at h
        exact absurd ((rfl : (Except.error ⟨500, "Internal Server Error"⟩ :
          Except HTTPError Json) = _).trans h) (by simp)
      | ok d =>
        rw [hld] at h
        have h2 : (match json_to_buildings d with
            | Except.error _ =>
              (Except.error ⟨500, "Internal Server Error"⟩ :
                Except HTTPError Json)
            | Except.ok buildings =>
              Except.ok (dumps (interpolate_dict buildings))) =
            Except.ok out2 := h
        cases hjb : json_to_buildings d with
        | error e =>
          rw [hjb] at h2
          exact absurd ((rfl : (Except.error ⟨500, "Internal Server Error"⟩ :
            Except HTTPError Json) = _).trans h2) (by simp)
        | ok bs =>
          rw [hjb] at h2
          have h3 : Except.ok (dumps (interpolate_dict bs)) = Except.ok out2 := h2
          injection h3 with hout
          have hwf : CollWF (interpolate_dict bs) :=
            interpolate_dict_WF bs (json_to_buildings_WF d bs hjb)
          rw [← hout]
          unfold interpolate_data
          rw [if_neg (by rw [show pyFalsy (dumps (interpolate_dict bs)) =
              false from rfl]; exact Bool.false_ne_true)]
          show (match json_to_buildings (collToJson (interpolate_dict bs)) with
            | Except.error _ =>
              (Except.error ⟨500, "Internal Server Error"⟩ :
                Except HTTPError Json)
            | Except.ok buildings =>
              Except.ok (dumps (interpolate_dict buildings))) =
            Except.ok (dumps (interpolate_dict bs))
          rw [json_to_buildings_collToJson _ hwf]
          show Except.ok (dumps (interpolate_dict (interpolate_dict bs))) =
            Except.ok (dumps (interpolate_dict bs))
          rw [interpolate_dict_idem]

theorem clean_interpolate_idempotent_witness :
    clean_data (Json.jstr (Json.obj [])) = .ok (dumps []) ∧
    clean_data (dumps []) = .ok (dumps []) ∧
    interpolate_data (Json.jstr (Json.obj [])) = .ok (dumps []) ∧
    interpolate_data (dumps []) = .ok (dumps []) :=
  ⟨rfl,
    (clean_interpolate_idempotent (Json.jstr (Json.obj []))
      (dumps []) (dumps [])).1 rfl,
    rfl,
    (clean_interpolate_idempotent (Json.jstr (Json.obj []))
      (dumps []) (dumps [])).2 rfl⟩

end Preproc
